import Mathlib

/-!
Verification development for the claude-code-runner Session & Shadow-Synchronization
Engine.  The definitions below are shallow embeddings of the TypeScript source:
`ShadowRepository` (shadow-repository module) and `WebUIServer` (`src/cli.ts`).
Pure computations (rsync rule construction, history eviction, diff counting) are
translated directly; stateful code (sync orchestration, the session registry,
debounce timers, the initialization fallback chain) is modelled by explicit state
passing over the same per-container maps the source keeps, with effectful steps
recorded as action traces where the claims talk about what the code does rather
than what it returns.
-/

namespace CCRunner

/-! ### Rule Builder: `ShadowRepository.prepareRsyncRules`

The source starts from a built-in exclude list, appends patterns derived from the
original repository's `.gitignore`, builds `+ `-prefixed include rules for every
git-tracked file and each of its ancestor directories, deduplicates the includes
preserving first-occurrence order (JS `[...new Set(xs)]`), and writes the includes
followed by the `- `-prefixed excludes. -/

/-- The built-in exclude patterns the source seeds `excludes` with. -/
def builtinExcludes : List String :=
  [".git", ".git/**", "node_modules", "node_modules/**", ".next", ".next/**",
   "__pycache__", "__pycache__/**", ".venv", ".venv/**", "*.pyc", "*.pyo",
   ".DS_Store", "Thumbs.db"]

/-- Whitespace predicate for the model of JS `String.prototype.trim`. -/
def isSpaceChar (c : Char) : Bool :=
  c = ' ' || c = '\t' || c = '\n' || c = '\r'

/-- Model of JS `s.trim()`: strip leading and trailing whitespace. -/
def strTrim (s : String) : String :=
  String.mk (((s.data.dropWhile isSpaceChar).reverse.dropWhile isSpaceChar).reverse)

/-- Model of JS `s.startsWith(pre)`. -/
def strStartsWith (s pre : String) : Bool := pre.data.isPrefixOf s.data

/-- Model of JS `s.endsWith(suf)`. -/
def strEndsWith (s suf : String) : Bool := suf.data.isSuffixOf s.data

/-- Model of JS `s.includes('/')`. -/
def strContainsSlash (s : String) : Bool := s.data.contains '/'

/-- Model of JS `s.split(sep)` on the character list: `''.split(sep)` is `['']`,
a trailing separator yields a trailing empty segment. -/
def splitCharsOn (sep : Char) : List Char → List String
  | [] => [""]
  | c :: cs =>
    let rest := splitCharsOn sep cs
    if c = sep then "" :: rest
    else
      match rest with
      | [] => [String.mk [c]]
      | s :: ss => String.mk (c :: s.data) :: ss

/-- Model of JS `s.split(sep)`. -/
def strSplit (sep : Char) (s : String) : List String := splitCharsOn sep s.data

/-- Model of JS `parts.join('/')`. -/
def joinSlash : List String → String
  | [] => ""
  | [x] => x
  | x :: y :: xs => x ++ "/" ++ joinSlash (y :: xs)

/-- Exclude patterns contributed by a single `.gitignore` line: empty lines,
comments and negated patterns contribute nothing; a trailing-slash directory
pattern expands to itself plus `pattern**`; a bare pattern without `/` is also
anchored as `**/pattern`. -/
def gitignoreLineExcludes (line : String) : List String :=
  let trimmed := strTrim line
  if trimmed = "" then []
  else if strStartsWith trimmed "#" then []
  else if strStartsWith trimmed "!" then []
  else if strEndsWith trimmed "/" then [trimmed, trimmed ++ "**"]
  else if strContainsSlash trimmed then [trimmed]
  else [trimmed, "**/" ++ trimmed]

/-- The full exclude pattern list: built-ins first, then the `.gitignore`-derived
patterns in file order (`none` models an absent `.gitignore`). -/
def excludesFor (gitignore : Option String) : List String :=
  builtinExcludes ++
    match gitignore with
    | none => []
    | some content => (strSplit '\n' content).flatMap gitignoreLineExcludes

/-- Ancestor directories of a tracked file, shallowest first:
`parts.slice(0, i).join('/')` for `i = 1 .. parts.length - 1`. -/
def ancestorDirs (file : String) : List String :=
  let parts := strSplit '/' file
  (List.range' 1 (parts.length - 1)).map (fun i => joinSlash (parts.take i))

/-- The raw include-rule list: for each tracked file, `+ file` followed by
`+ dir/` for each ancestor directory. -/
def includesFor (trackedFiles : List String) : List String :=
  trackedFiles.flatMap (fun f =>
    ("+ " ++ f) :: (ancestorDirs f).map (fun d => "+ " ++ d ++ "/"))

/-- First-occurrence deduplication with the already-seen elements accumulated,
the insertion behaviour of a JS `Set`. -/
def dedupFirstAux (seen : List String) : List String → List String
  | [] => []
  | x :: xs =>
    if x ∈ seen then dedupFirstAux seen xs
    else x :: dedupFirstAux (x :: seen) xs

/-- First-occurrence deduplication, the order JS `[...new Set(xs)]` produces. -/
def dedupFirst (l : List String) : List String := dedupFirstAux [] l

/-- The rule list written to the rules file: deduplicated includes first, then
every exclude pattern prefixed with `- `. -/
def buildRules (trackedFiles : List String) (gitignore : Option String) : List String :=
  dedupFirst (includesFor trackedFiles) ++ (excludesFor gitignore).map (fun e => "- " ++ e)

/-- `prepareRsyncRules` with the tracked-file enumeration outcome made explicit:
`none` models `git ls-files` failing, in which case the inner catch leaves
`trackedFiles` empty and rule construction continues. -/
def prepareRsyncRules (tracked : Option (List String)) (gitignore : Option String) :
    List String :=
  buildRules (tracked.getD []) gitignore

/-- The minimal exclude file written by the outer catch of `prepareRsyncRules`,
used only when rule preparation itself throws. -/
def basicExcludeRules : List String :=
  ["- .git", "- node_modules", "- .next", "- __pycache__", "- .venv"]

/-- A rule line is an include rule when it starts with `"+ "`. -/
def isIncludeRule (r : String) : Prop := "+ ".data <+: r.data

/-- A rule line is an exclude rule when it starts with `"- "`. -/
def isExcludeRule (r : String) : Prop := "- ".data <+: r.data

instance (r : String) : Decidable (isIncludeRule r) :=
  inferInstanceAs (Decidable ("+ ".data <+: r.data))

instance (r : String) : Decidable (isExcludeRule r) :=
  inferInstanceAs (Decidable ("- ".data <+: r.data))

theorem isIncludeRule_append (x : String) : isIncludeRule ("+ " ++ x) := by
  refine ⟨x.data, ?_⟩
  simp [isIncludeRule, String.data_append]

theorem isExcludeRule_append (x : String) : isExcludeRule ("- " ++ x) := by
  refine ⟨x.data, ?_⟩
  simp [isExcludeRule, String.data_append]

theorem not_exclude_of_include {r : String} (h : isIncludeRule r) :
    ¬ isExcludeRule r := by
  rcases h with ⟨t₁, h₁⟩
  rintro ⟨t₂, h₂⟩
  rw [← h₁] at h₂
  have hplus : "+ ".data = ['+', ' '] := rfl
  have hminus : "- ".data = ['-', ' '] := rfl
  rw [hplus, hminus] at h₂
  simp at h₂

theorem mem_dedupFirstAux {a : String} :
    ∀ {l seen : List String}, a ∈ dedupFirstAux seen l ↔ (a ∈ l ∧ a ∉ seen)
  | [], seen => by simp [dedupFirstAux]
  | x :: xs, seen => by
    rw [dedupFirstAux]
    by_cases hx : x ∈ seen
    · rw [if_pos hx, mem_dedupFirstAux]
      constructor
      · rintro ⟨h1, h2⟩; exact ⟨List.mem_cons_of_mem _ h1, h2⟩
      · rintro ⟨h1, h2⟩
        rcases List.mem_cons.mp h1 with rfl | h1
        · exact absurd hx h2
        · exact ⟨h1, h2⟩
    · rw [if_neg hx]
      by_cases hax : a = x
      · subst hax; simp [mem_dedupFirstAux, hx]
      · simp only [List.mem_cons, hax, false_or]
        rw [mem_dedupFirstAux]
        simp [List.mem_cons, hax]

theorem mem_dedupFirst {a : String} {l : List String} : a ∈ dedupFirst l ↔ a ∈ l := by
  rw [dedupFirst, mem_dedupFirstAux]
  simp

theorem nodup_dedupFirstAux : ∀ (l seen : List String), (dedupFirstAux seen l).Nodup
  | [], _ => by simp [dedupFirstAux]
  | x :: xs, seen => by
    rw [dedupFirstAux]
    by_cases hx : x ∈ seen
    · rw [if_pos hx]; exact nodup_dedupFirstAux xs seen
    · rw [if_neg hx]
      refine List.nodup_cons.mpr ⟨?_, nodup_dedupFirstAux xs (x :: seen)⟩
      intro hmem
      exact (mem_dedupFirstAux.mp hmem).2 (List.mem_cons_self _ _)

theorem nodup_dedupFirst (l : List String) : (dedupFirst l).Nodup :=
  nodup_dedupFirstAux l []

theorem includesFor_all_include {r : String} {tf : List String}
    (h : r ∈ includesFor tf) : isIncludeRule r := by
  simp only [includesFor, List.mem_flatMap, List.mem_cons, List.mem_map] at h
  obtain ⟨f, _, hf⟩ := h
  rcases hf with rfl | ⟨d, _, rfl⟩
  · exact isIncludeRule_append f
  · have : "+ " ++ d ++ "/" = "+ " ++ (d ++ "/") := by
      simp [String.append_assoc]
    rw [this]
    exact isIncludeRule_append (d ++ "/")

theorem index_lt_of_append {A B : List String}
    (hA : ∀ r ∈ A, isIncludeRule r) (hB : ∀ r ∈ B, isExcludeRule r)
    {i j : Nat} (hi : i < (A ++ B).length) (hj : j < (A ++ B).length)
    (hinc : isIncludeRule ((A ++ B).get ⟨i, hi⟩))
    (hexc : isExcludeRule ((A ++ B).get ⟨j, hj⟩)) : i < j := by
  have hiA : i < A.length := by
    by_contra hge
    push_neg at hge
    have hiB : i - A.length < B.length := by
      have := hi
      rw [List.length_append] at this
      omega
    have hget : (A ++ B).get ⟨i, hi⟩ = B.get ⟨i - A.length, hiB⟩ := by
      simp only [List.get_eq_getElem]
      exact List.getElem_append_right hge
    have hmem : (A ++ B).get ⟨i, hi⟩ ∈ B := by
      rw [hget]; exact List.get_mem _ _ _
    exact not_exclude_of_include hinc (hB _ hmem)
  have hjA : A.length ≤ j := by
    by_contra hlt
    push_neg at hlt
    have hget : (A ++ B).get ⟨j, hj⟩ = A.get ⟨j, hlt⟩ := by
      simp only [List.get_eq_getElem]
      exact List.getElem_append_left hlt
    have hmem : (A ++ B).get ⟨j, hj⟩ ∈ A := by
      rw [hget]; exact List.get_mem _ _ _
    exact not_exclude_of_include (hA _ hmem) hexc
  omega

/-- C1: for every tracked-file list and `.gitignore` content, the rule set built by
`prepareRsyncRules` contains an include rule for each tracked file and for each of
its ancestor directories, consists of a deduplicated block of include rules
followed by the exclude rules, and in the resulting list every include rule
precedes every exclude rule. -/
theorem prepareRsyncRules_includes_precede_excludes
    (tf : List String) (gi : Option String) :
    (∀ f ∈ tf, ("+ " ++ f) ∈ prepareRsyncRules (some tf) gi) ∧
    (∀ f ∈ tf, ∀ d ∈ ancestorDirs f,
      ("+ " ++ d ++ "/") ∈ prepareRsyncRules (some tf) gi) ∧
    (∀ e ∈ excludesFor gi, ("- " ++ e) ∈ prepareRsyncRules (some tf) gi) ∧
    (∃ inc exc, prepareRsyncRules (some tf) gi = inc ++ exc ∧
      inc.Nodup ∧ (∀ r ∈ inc, isIncludeRule r) ∧ (∀ r ∈ exc, isExcludeRule r)) ∧
    (∀ i j (hi : i < (prepareRsyncRules (some tf) gi).length)
        (hj : j < (prepareRsyncRules (some tf) gi).length),
      isIncludeRule ((prepareRsyncRules (some tf) gi).get ⟨i, hi⟩) →
      isExcludeRule ((prepareRsyncRules (some tf) gi).get ⟨j, hj⟩) → i < j) := by
  have hA : ∀ r ∈ dedupFirst (includesFor tf), isIncludeRule r := fun r hr =>
    includesFor_all_include (mem_dedupFirst.mp hr)
  have hB : ∀ r ∈ (excludesFor gi).map (fun e => "- " ++ e), isExcludeRule r := by
    intro r hr
    obtain ⟨e, _, rfl⟩ := List.mem_map.mp hr
    exact isExcludeRule_append e
  have hrules : prepareRsyncRules (some tf) gi =
      dedupFirst (includesFor tf) ++ (excludesFor gi).map (fun e => "- " ++ e) := rfl
  refine ⟨?_, ?_, ?_, ?_, ?_⟩
  · intro f hf
    rw [hrules]
    refine List.mem_append_left _ (mem_dedupFirst.mpr ?_)
    simp only [includesFor, List.mem_flatMap]
    exact ⟨f, hf, List.mem_cons_self _ _⟩
  · intro f hf d hd
    rw [hrules]
    refine List.mem_append_left _ (mem_dedupFirst.mpr ?_)
    simp only [includesFor, List.mem_flatMap]
    refine ⟨f, hf, List.mem_cons_of_mem _ ?_⟩
    exact List.mem_map.mpr ⟨d, hd, rfl⟩
  · intro e he
    rw [hrules]
    exact List.mem_append_right _ (List.mem_map.mpr ⟨e, he, rfl⟩)
  · exact ⟨dedupFirst (includesFor tf), (excludesFor gi).map (fun e => "- " ++ e),
      hrules, nodup_dedupFirst _, hA, hB⟩
  · intro i j hi hj hinc hexc
    exact index_lt_of_append hA hB hi hj hinc hexc

/-- Witness for C1 at a concrete tracked file with one ancestor directory. -/
theorem prepareRsyncRules_includes_precede_excludes_witness :
    ("+ " ++ "a/b.txt") ∈ prepareRsyncRules (some ["a/b.txt"]) none ∧
    ("+ " ++ "a" ++ "/") ∈ prepareRsyncRules (some ["a/b.txt"]) none :=
  ⟨(prepareRsyncRules_includes_precede_excludes ["a/b.txt"] none).1
      "a/b.txt" (by decide),
   (prepareRsyncRules_includes_precede_excludes ["a/b.txt"] none).2.1
      "a/b.txt" (by decide) "a" (by decide)⟩

/-- C6 counterexample: when tracked-file enumeration fails but a `.gitignore` is
present (`*.log`), the written rule set is not the minimal basic exclude set —
the inner catch swallows the `git ls-files` error and rule construction continues
with the gitignore-derived and built-in excludes. -/
theorem prepareRsyncRules_failure_not_basic :
    prepareRsyncRules none (some "*.log") ≠ basicExcludeRules := by decide

/-- C6 amended: if tracked-file enumeration fails, the rule set contains no
include rules, but it is the full exclude set (built-ins plus gitignore-derived
patterns), not the minimal basic exclude set; rule preparation still completes,
so sync proceeds. -/
theorem prepareRsyncRules_lsfiles_failure (gi : Option String) :
    prepareRsyncRules none gi = (excludesFor gi).map (fun e => "- " ++ e) ∧
    (∀ r ∈ prepareRsyncRules none gi, isExcludeRule r ∧ ¬ isIncludeRule r) := by
  have h : prepareRsyncRules none gi = (excludesFor gi).map (fun e => "- " ++ e) := by
    simp [prepareRsyncRules, buildRules, includesFor, dedupFirst, dedupFirstAux]
  refine ⟨h, ?_⟩
  intro r hr
  rw [h] at hr
  obtain ⟨e, _, rfl⟩ := List.mem_map.mp hr
  have hex := isExcludeRule_append e
  exact ⟨hex, fun hin => not_exclude_of_include hin hex⟩

/-- Witness for the amended C6 at a concrete gitignore and rule. -/
theorem prepareRsyncRules_lsfiles_failure_witness :
    isExcludeRule "- .git" ∧ ¬ isIncludeRule "- .git" :=
  (prepareRsyncRules_lsfiles_failure (some "*.log")).2 "- .git" (by decide)

/-! ### Terminal Session Registry: bounded output history

The source appends each PTY output chunk to `session.outputHistory`, then while
the total byte size exceeds 100 KB **and more than one chunk remains**, evicts
the oldest chunk (`shift()`).  A reattaching client receives a terminal-clear
escape sequence and then every retained chunk in production order. -/

/-- The history byte cap from the source (`totalSize > 100000`). -/
def HISTORY_CAP : Nat := 100000

/-- A PTY output chunk, as a byte sequence. -/
abbrev Chunk := List Nat

/-- Total byte size of the retained history. -/
def histSize (h : List Chunk) : Nat := (h.map List.length).sum

/-- The eviction loop: drop oldest chunks while the size exceeds the cap and at
least two chunks remain. -/
def evictOldest : List Chunk → List Chunk
  | [] => []
  | [c] => [c]
  | c :: c' :: rest =>
    if HISTORY_CAP < histSize (c :: c' :: rest) then evictOldest (c' :: rest)
    else c :: c' :: rest

/-- Append a chunk to the history, then run the eviction loop. -/
def pushChunk (h : List Chunk) (c : Chunk) : List Chunk := evictOldest (h ++ [c])

/-- The bytes of the terminal-clear sequence `"\x1B[2J\x1B[H"` sent before replay. -/
def clearSignal : Chunk := [27, 91, 50, 74, 27, 91, 72]

/-- What a reattaching client receives: nothing when the history is empty,
otherwise the clear signal followed by the retained chunks in order. -/
def replayOutputs (h : List Chunk) : List Chunk :=
  if h.isEmpty then [] else clearSignal :: h

theorem evictOldest_suffix : ∀ h : List Chunk, evictOldest h <:+ h
  | [] => List.suffix_rfl
  | [_] => List.suffix_rfl
  | c :: c' :: rest => by
    rw [evictOldest]
    split
    · exact (evictOldest_suffix (c' :: rest)).trans (List.suffix_cons c (c' :: rest))
    · exact List.suffix_rfl

theorem evictOldest_spec :
    ∀ h : List Chunk, histSize (evictOldest h) ≤ HISTORY_CAP ∨ (evictOldest h).length ≤ 1
  | [] => Or.inr (by simp [evictOldest])
  | [c] => Or.inr (by simp [evictOldest])
  | c :: c' :: rest => by
    rw [evictOldest]
    split
    · exact evictOldest_spec (c' :: rest)
    · next hle => exact Or.inl (Nat.le_of_not_lt hle)

theorem evictOldest_ne_nil : ∀ {h : List Chunk}, h ≠ [] → evictOldest h ≠ []
  | [], hne => absurd rfl hne
  | [c], _ => by simp [evictOldest]
  | c :: c' :: rest, _ => by
    rw [evictOldest]
    split
    · exact evictOldest_ne_nil (by simp)
    · simp

/-- C3 counterexample: a single 100001-byte chunk is retained whole, so the
retained history exceeds the 100 KB cap (the eviction loop stops once one chunk
remains). -/
theorem outputHistory_cap_counterexample :
    HISTORY_CAP < histSize (pushChunk [] (List.replicate 100001 0)) := by
  have h1 : pushChunk [] (List.replicate 100001 0) = [List.replicate 100001 0] := rfl
  have h2 : histSize [List.replicate 100001 0] = 100001 := by
    have hs : ∀ c : Chunk, histSize [c] = c.length := fun c => by simp [histSize]
    rw [hs, List.length_replicate]
  rw [h1, h2]
  norm_num [HISTORY_CAP]

/-- C3 amended: after appending a chunk the retained history is a suffix of the
produced chunks (oldest evicted first), and its size exceeds the cap only when a
single chunk is retained; a reattaching client receives the clear signal followed
by exactly the retained chunks in production order. -/
theorem outputHistory_bound_and_replay (h : List Chunk) (c : Chunk) :
    pushChunk h c <:+ h ++ [c] ∧
    (histSize (pushChunk h c) ≤ HISTORY_CAP ∨ (pushChunk h c).length = 1) ∧
    (∀ hist : List Chunk, hist ≠ [] → replayOutputs hist = clearSignal :: hist) := by
  refine ⟨evictOldest_suffix _, ?_, ?_⟩
  · rcases evictOldest_spec (h ++ [c]) with hle | hlen
    · exact Or.inl hle
    · right
      have hne : evictOldest (h ++ [c]) ≠ [] := evictOldest_ne_nil (by simp)
      have hpos : 0 < (evictOldest (h ++ [c])).length := List.length_pos.mpr hne
      have hlen' : (evictOldest (h ++ [c])).length ≤ 1 := hlen
      show (evictOldest (h ++ [c])).length = 1
      omega
  · intro hist hne
    rw [replayOutputs, if_neg ?_]
    simpa using hne

/-- Witness for the amended C3 at a concrete history and chunk. -/
theorem outputHistory_bound_and_replay_witness :
    pushChunk [[1]] [2] <:+ [[1], [2]] ∧ replayOutputs [[1]] = clearSignal :: [[1]] :=
  ⟨(outputHistory_bound_and_replay [[1]] [2]).1,
   (outputHistory_bound_and_replay [[1]] [2]).2.2 [[1]] (by decide)⟩

/-! ### Sync Orchestrator: single-flight guard (`WebUIServer.performSync`)

`performSync` returns immediately when the container id is already in the
`syncInProgress` set, otherwise adds it, runs the sync body, and removes the id
in a `finally` block on both the success and the error path.  The model keeps
the `Set<string>` as a list plus, per container, the number of sync bodies
currently executing; events are the entry of a `performSync` call and the
completion (successful or failed) of a running body. -/

structure OrchSt where
  syncInProgress : List String
  activeSyncs : String → Nat

def orchInit : OrchSt := ⟨[], fun _ => 0⟩

/-- Entry of `performSync(cid)`: dropped when a sync for `cid` is in progress,
otherwise the guard is set and a sync body starts. -/
def triggerSync (cid : String) (s : OrchSt) : OrchSt :=
  if cid ∈ s.syncInProgress then s
  else
    { syncInProgress := cid :: s.syncInProgress,
      activeSyncs := fun c => if c = cid then s.activeSyncs c + 1 else s.activeSyncs c }

/-- Completion of a running sync body: the `finally` block deletes the guard
whether the body succeeded or failed. -/
def finishSync (cid : String) (_success : Bool) (s : OrchSt) : OrchSt :=
  { syncInProgress := s.syncInProgress.filter (fun c => c ≠ cid),
    activeSyncs := fun c => if c = cid then s.activeSyncs c - 1 else s.activeSyncs c }

inductive OrchEvent
  | trigger (cid : String)
  | finish (cid : String) (success : Bool)

def orchStep (s : OrchSt) : OrchEvent → OrchSt
  | .trigger cid => triggerSync cid s
  | .finish cid ok => finishSync cid ok s

def orchRun (evs : List OrchEvent) : OrchSt := evs.foldl orchStep orchInit

/-- The single-flight invariant: per container, at most one sync body runs, and
the guard is set exactly while one runs. -/
def OrchInv (s : OrchSt) : Prop :=
  ∀ cid, s.activeSyncs cid ≤ 1 ∧ (cid ∈ s.syncInProgress ↔ s.activeSyncs cid = 1)

theorem orchInv_init : OrchInv orchInit := by
  intro cid; simp [orchInit]

theorem orchInv_step {s : OrchSt} (hs : OrchInv s) (e : OrchEvent) :
    OrchInv (orchStep s e) := by
  cases e with
  | trigger cid =>
    by_cases hin : cid ∈ s.syncInProgress
    · simpa [orchStep, triggerSync, hin] using hs
    · have h0 : s.activeSyncs cid = 0 := by
        have h1 := (hs cid).1
        have h2 := (hs cid).2
        rcases Nat.lt_or_ge (s.activeSyncs cid) 1 with h | h
        · omega
        · exact absurd (h2.mpr (by omega)) hin
      intro c
      by_cases hc : c = cid
      · subst hc
        simp [orchStep, triggerSync, hin, h0]
      · have := hs c
        simp only [orchStep, triggerSync, if_neg hin]
        constructor
        · simpa [hc] using this.1
        · simpa [List.mem_cons, hc] using this.2
  | finish cid success =>
    intro c
    by_cases hc : c = cid
    · subst hc
      have h1 := (hs c).1
      constructor
      · simp only [orchStep, finishSync]
        simp
        omega
      · simp only [orchStep, finishSync, List.mem_filter]
        simp
        omega
    · have := hs c
      simp only [orchStep, finishSync, List.mem_filter]
      constructor
      · simpa [hc] using this.1
      · simpa [hc] using this.2

/-- C2: for every container id, at most one sync body is ever in flight along any
event sequence; a `performSync` entry while a sync for that container is in
progress leaves the state unchanged (the trigger is dropped, not queued); and
finishing a sync clears the in-progress guard whether it succeeded or failed. -/
theorem performSync_single_flight :
    (∀ (evs : List OrchEvent) (cid : String), (orchRun evs).activeSyncs cid ≤ 1) ∧
    (∀ (s : OrchSt) (cid : String), cid ∈ s.syncInProgress → triggerSync cid s = s) ∧
    (∀ (s : OrchSt) (cid : String) (success : Bool),
      cid ∉ (finishSync cid success s).syncInProgress) := by
  refine ⟨?_, ?_, ?_⟩
  · intro evs cid
    have hrun : OrchInv (orchRun evs) := by
      have hfold : ∀ (l : List OrchEvent) (s : OrchSt),
          OrchInv s → OrchInv (l.foldl orchStep s) := by
        intro l
        induction l with
        | nil => intro s hs; exact hs
        | cons e l ih => intro s hs; exact ih _ (orchInv_step hs e)
      exact hfold evs orchInit orchInv_init
    exact (hrun cid).1
  · intro s cid h
    simp [triggerSync, h]
  · intro s cid success
    simp [finishSync]

/-- Witness for C2 at a concrete event sequence and state. -/
theorem performSync_single_flight_witness :
    (orchRun [OrchEvent.trigger "c", OrchEvent.trigger "c"]).activeSyncs "c" ≤ 1 ∧
    triggerSync "c" ⟨["c"], fun _ => 1⟩ = ⟨["c"], fun _ => 1⟩ ∧
    "c" ∉ (finishSync "c" false ⟨["c"], fun _ => 1⟩).syncInProgress :=
  ⟨performSync_single_flight.1 _ "c",
   performSync_single_flight.2.1 ⟨["c"], fun _ => 1⟩ "c" (by decide),
   performSync_single_flight.2.2 ⟨["c"], fun _ => 1⟩ "c" false⟩

/-! ### Change Monitor: debounce (`debouncedSync`)

Every inotify event clears any pending timer and arms a new one with a fixed
500 ms delay; the timer, when it survives to its deadline, invokes one
`performSync`.  `fireTimes` gives the deadlines at which the timer actually
fires for a sorted sequence of event timestamps: an event arriving strictly
before the pending deadline cancels it. -/

def debounceDelay : Nat := 500

def fireTimes : List Nat → List Nat
  | [] => []
  | [t] => [t + debounceDelay]
  | t :: t' :: rest =>
    if t' < t + debounceDelay then fireTimes (t' :: rest)
    else (t + debounceDelay) :: fireTimes (t' :: rest)

/-- C4: a burst of `N ≥ 1` events in which each event arrives within the
debounce delay of the previous one produces exactly one sync invocation, fired
one debounce delay after the last event of the burst. -/
theorem debounce_coalesces (ts : List Nat) :
    ∀ (hne : ts ≠ []), ts.Chain' (fun a b => b < a + debounceDelay) →
    fireTimes ts = [ts.getLast hne + debounceDelay] := by
  induction ts with
  | nil => intro hne _; exact absurd rfl hne
  | cons t rest ih =>
    intro hne hburst
    cases rest with
    | nil => simp [fireTimes]
    | cons t' rest' =>
      rw [List.chain'_cons] at hburst
      have h1 := ih (by simp) hburst.2
      simp only [fireTimes, if_pos hburst.1, h1]
      simp [List.getLast_cons]

/-- Witness for C4 at a concrete burst of three events. -/
theorem debounce_coalesces_witness :
    fireTimes [0, 100, 300] = [300 + debounceDelay] :=
  debounce_coalesces [0, 100, 300] (by decide)
    (by simp [List.chain'_cons, debounceDelay])

/-! ### Shadow Repository: `initialize()` fallback chain

`initialize()` returns immediately when `this.initialized` is set.  Otherwise it
ensures the temp root, removes any stale shadow directory, then tries in order:
a shallow single-branch clone, a full single-branch clone, and a raw copy of the
working tree followed by `git init` and an initial commit — each attempt only in
the catch of the previous one.  After a successful population it runs post-setup
(branch creation, remote configuration, HEAD check) and only then sets
`this.initialized`; if population or post-setup throws, the outer catch rethrows
and the flag stays unset.  The model records the effectful steps as an action
trace and takes each external outcome as an environment flag. -/

inductive InitAction
  | purgeStale
  | tryShallowClone
  | tryFullClone
  | tryCopyInit
  | postSetup
  deriving DecidableEq

structure InitEnv where
  staleExists : Bool
  shallowCloneOk : Bool
  fullCloneOk : Bool
  copyInitOk : Bool
  postOk : Bool
  deriving DecidableEq

structure InitResult where
  actions : List InitAction
  ok : Bool
  initializedAfter : Bool
  deriving DecidableEq

def purgeActions (env : InitEnv) : List InitAction :=
  if env.staleExists then [InitAction.purgeStale] else []

def runInitialize (initializedBefore : Bool) (env : InitEnv) : InitResult :=
  if initializedBefore then ⟨[], true, true⟩
  else
    let purge := purgeActions env
    if env.shallowCloneOk then
      ⟨purge ++ [.tryShallowClone, .postSetup], env.postOk, env.postOk⟩
    else if env.fullCloneOk then
      ⟨purge ++ [.tryShallowClone, .tryFullClone, .postSetup], env.postOk, env.postOk⟩
    else if env.copyInitOk then
      ⟨purge ++ [.tryShallowClone, .tryFullClone, .tryCopyInit, .postSetup],
        env.postOk, env.postOk⟩
    else
      ⟨purge ++ [.tryShallowClone, .tryFullClone, .tryCopyInit], false, false⟩

/-- C5: on an uninitialized repository, `initialize()` purges any stale shadow
directory first, always attempts the shallow clone, attempts the full clone only
when the shallow clone failed and the raw copy only when both clones failed, and
when all three strategies fail it returns an error and the repository is not
marked initialized. -/
theorem initialize_fallback_chain (env : InitEnv) :
    (env.staleExists = true →
      (runInitialize false env).actions.head? = some InitAction.purgeStale) ∧
    InitAction.tryShallowClone ∈ (runInitialize false env).actions ∧
    (InitAction.tryFullClone ∈ (runInitialize false env).actions ↔
      env.shallowCloneOk = false) ∧
    (InitAction.tryCopyInit ∈ (runInitialize false env).actions ↔
      (env.shallowCloneOk = false ∧ env.fullCloneOk = false)) ∧
    ((env.shallowCloneOk = false ∧ env.fullCloneOk = false ∧ env.copyInitOk = false) →
      (runInitialize false env).actions =
        purgeActions env ++ [.tryShallowClone, .tryFullClone, .tryCopyInit] ∧
      (runInitialize false env).ok = false ∧
      (runInitialize false env).initializedAfter = false) := by
  rcases env with ⟨st, sh, fu, co, po⟩
  cases st <;> cases sh <;> cases fu <;> cases co <;> cases po <;> decide

/-- Witness for C5: stale directory present and all three strategies failing. -/
theorem initialize_fallback_chain_witness :
    (runInitialize false ⟨true, false, false, false, true⟩).actions.head? =
      some InitAction.purgeStale ∧
    (runInitialize false ⟨true, false, false, false, true⟩).ok = false :=
  ⟨(initialize_fallback_chain ⟨true, false, false, false, true⟩).1 rfl,
   ((initialize_fallback_chain ⟨true, false, false, false, true⟩).2.2.2.2
      ⟨rfl, rfl, rfl⟩).2.1⟩

/-- C9: once `initialize()` has succeeded (the initialized flag is set), every
subsequent `initialize()` call performs no actions — the shadow path, working
tree, branch state and rules file are untouched — and reports success with the
flag still set. -/
theorem initialize_idempotent (env env' : InitEnv)
    (h : (runInitialize false env).initializedAfter = true) :
    runInitialize (runInitialize false env).initializedAfter env' =
      ⟨[], true, true⟩ := by
  rw [h]
  simp [runInitialize]

/-- Witness for C9: a successful shallow-clone initialization followed by a
second call in an environment where every strategy would fail. -/
theorem initialize_idempotent_witness :
    runInitialize (runInitialize false ⟨false, true, true, true, true⟩).initializedAfter
      ⟨false, false, false, false, false⟩ = ⟨[], true, true⟩ :=
  initialize_idempotent ⟨false, true, true, true, true⟩
    ⟨false, false, false, false, false⟩ (by decide)

/-! ### Session Server: registry state and socket handlers

The server keeps `sessions : Map<containerId, session>` (each session holding
its attached socket-id set, PTY stream and output history), `fileWatchers` and
`shadowRepos`, all keyed by container id.  The PTY stream's `end` handler
notifies every attached socket with `container-disconnected`, stops monitoring,
removes the session and cleans up and removes the shadow repository; the
`error` handler only notifies every attached socket with an `error` message.
The socket `disconnect` handler removes the socket id from every session's
attached set and nothing else; the `attach` handler creates a new PTY only when
no session with a live stream exists for the container. -/

structure SessionM where
  connectedSockets : List String
  hasStream : Bool
  outputHistory : List Chunk
  deriving DecidableEq

structure ServerSt where
  sessions : List (String × SessionM)
  fileWatchers : List String
  shadowRepos : List String
  deriving DecidableEq

def lookupSession (st : ServerSt) (cid : String) : Option SessionM :=
  (st.sessions.find? (fun p => p.1 = cid)).map Prod.snd

/-- The PTY stream `end` handler: notify all attached sockets, stop monitoring,
delete the session, clean up and delete the shadow repository.  Returns the new
state and the socket ids notified with `container-disconnected`. -/
def handleStreamEnd (st : ServerSt) (cid : String) : ServerSt × List String :=
  let notified := match lookupSession st cid with
    | some s => s.connectedSockets
    | none => []
  (⟨st.sessions.filter (fun p => p.1 ≠ cid),
    st.fileWatchers.filter (fun c => c ≠ cid),
    st.shadowRepos.filter (fun c => c ≠ cid)⟩, notified)

/-- The PTY stream `error` handler: notify all attached sockets with an error
message; the registry, watchers and shadow repositories are untouched. -/
def handleStreamError (st : ServerSt) (cid : String) : ServerSt × List String :=
  (st, match lookupSession st cid with
    | some s => s.connectedSockets
    | none => [])

/-- The socket `disconnect` handler: delete the socket id from every session's
attached set. -/
def handleDisconnect (st : ServerSt) (sid : String) : ServerSt :=
  { st with sessions := st.sessions.map (fun p =>
      (p.1, { p.2 with connectedSockets := p.2.connectedSockets.filter (fun x => x ≠ sid) })) }

/-- The `attach` handler's decision: a new PTY exec is created exactly when
there is no session for the container or its stream is gone. -/
def attachCreatesNewPty (st : ServerSt) (cid : String) : Bool :=
  match lookupSession st cid with
  | none => true
  | some s => !s.hasStream

/-- A concrete registry state: one session for container `"c"` with one attached
socket, a live stream, a file watcher and a shadow repository. -/
def exampleServerSt : ServerSt := ⟨[("c", ⟨["s1"], true, []⟩)], ["c"], ["c"]⟩

/-- C7 counterexample: when the PTY stream *errors*, the handler leaves the
state untouched — the session is still registered, the change monitor still
runs and the shadow repository is still held — contradicting the claim that an
erroring stream tears the session down like an ending one. -/
theorem stream_error_keeps_session :
    (handleStreamError exampleServerSt "c").1 = exampleServerSt ∧
    lookupSession (handleStreamError exampleServerSt "c").1 "c" ≠ none ∧
    (handleStreamError exampleServerSt "c").1.fileWatchers = ["c"] ∧
    (handleStreamError exampleServerSt "c").1.shadowRepos = ["c"] := by
  decide

/-- C7 amended: when the PTY stream **ends**, every attached client is notified,
the session is removed from the registry, the monitor is stopped and the shadow
repository is released; when the stream **errors**, every attached client is
notified but the registry, monitor and shadow repository are unchanged. -/
theorem stream_end_cleans_up (st : ServerSt) (cid : String) (s : SessionM)
    (h : lookupSession st cid = some s) :
    (handleStreamEnd st cid).2 = s.connectedSockets ∧
    lookupSession (handleStreamEnd st cid).1 cid = none ∧
    cid ∉ (handleStreamEnd st cid).1.fileWatchers ∧
    cid ∉ (handleStreamEnd st cid).1.shadowRepos ∧
    (handleStreamError st cid).2 = s.connectedSockets ∧
    (handleStreamError st cid).1 = st := by
  refine ⟨?_, ?_, ?_, ?_, ?_, rfl⟩
  · simp [handleStreamEnd, h]
  · simp only [handleStreamEnd, lookupSession, Option.map_eq_none', List.find?_eq_none]
    intro p hp
    have h2 := (List.mem_filter.mp hp).2
    simpa using h2
  · simp [handleStreamEnd, List.mem_filter]
  · simp [handleStreamEnd, List.mem_filter]
  · simp [handleStreamError, h]

/-- Witness for the amended C7 at the concrete registry state. -/
theorem stream_end_cleans_up_witness :
    (handleStreamEnd exampleServerSt "c").2 = ["s1"] ∧
    lookupSession (handleStreamEnd exampleServerSt "c").1 "c" = none :=
  ⟨(stream_end_cleans_up exampleServerSt "c" ⟨["s1"], true, []⟩ (by decide)).1,
   (stream_end_cleans_up exampleServerSt "c" ⟨["s1"], true, []⟩ (by decide)).2.1⟩

theorem find?_map_keyed (l : List (String × SessionM)) (cid : String)
    (g : SessionM → SessionM) :
    ((l.map (fun p => (p.1, g p.2))).find? (fun p => p.1 = cid)).map Prod.snd =
      (((l.find? (fun p => p.1 = cid)).map Prod.snd).map g) := by
  induction l with
  | nil => simp
  | cons p rest ih =>
    by_cases h : p.1 = cid
    · simp [List.find?_cons, h]
    · simp only [List.map_cons, List.find?_cons, h]
      simpa [h] using ih

theorem lookupSession_handleDisconnect (st : ServerSt) (sid cid : String) :
    lookupSession (handleDisconnect st sid) cid =
      (lookupSession st cid).map (fun s =>
        { s with connectedSockets := s.connectedSockets.filter (fun x => x ≠ sid) }) := by
  simp only [lookupSession, handleDisconnect]
  exact find?_map_keyed st.sessions cid
    (fun s => { s with connectedSockets := s.connectedSockets.filter (fun x => x ≠ sid) })

/-- C10: a socket disconnect removes only that socket id from each session's
attached set — every other socket id survives, the session (stream and output
history intact), shadow repository and file monitor are unchanged, the session
stays registered even when its last client leaves, and a later attach to the
container still rejoins the existing session instead of creating a new PTY. -/
theorem disconnect_removes_only_socket (st : ServerSt) (sid cid : String)
    (s : SessionM) (h : lookupSession st cid = some s) :
    lookupSession (handleDisconnect st sid) cid =
      some { s with connectedSockets := s.connectedSockets.filter (fun x => x ≠ sid) } ∧
    (∀ x ∈ s.connectedSockets, x ≠ sid →
      x ∈ s.connectedSockets.filter (fun y => y ≠ sid)) ∧
    sid ∉ s.connectedSockets.filter (fun y => y ≠ sid) ∧
    (handleDisconnect st sid).shadowRepos = st.shadowRepos ∧
    (handleDisconnect st sid).fileWatchers = st.fileWatchers ∧
    attachCreatesNewPty (handleDisconnect st sid) cid = attachCreatesNewPty st cid ∧
    (s.hasStream = true → attachCreatesNewPty (handleDisconnect st sid) cid = false) := by
  have hlook := lookupSession_handleDisconnect st sid cid
  rw [h] at hlook
  refine ⟨hlook, ?_, ?_, rfl, rfl, ?_, ?_⟩
  · intro x hx hne
    simp [List.mem_filter, hx, hne]
  · simp [List.mem_filter]
  · simp [attachCreatesNewPty, hlook, h]
  · intro hstream
    simp [attachCreatesNewPty, hlook, hstream]

/-- Witness for C10: disconnecting one of two attached sockets. -/
theorem disconnect_removes_only_socket_witness :
    lookupSession
        (handleDisconnect ⟨[("c", ⟨["s1", "s2"], true, []⟩)], [], ["c"]⟩ "s1") "c" =
      some ⟨["s2"], true, []⟩ ∧
    attachCreatesNewPty
        (handleDisconnect ⟨[("c", ⟨["s1", "s2"], true, []⟩)], [], ["c"]⟩ "s1") "c" =
      false :=
  ⟨(disconnect_removes_only_socket ⟨[("c", ⟨["s1", "s2"], true, []⟩)], [], ["c"]⟩
      "s1" "c" ⟨["s1", "s2"], true, []⟩ (by decide)).1,
   (disconnect_removes_only_socket ⟨[("c", ⟨["s1", "s2"], true, []⟩)], [], ["c"]⟩
      "s1" "c" ⟨["s1", "s2"], true, []⟩ (by decide)).2.2.2.2.2.2 rfl⟩

/-! ### Sync pipeline: `syncFromContainer`, `getChanges`, first-sync baseline

`syncFromContainer` deterministically replaces the shadow working tree with the
container content as filtered by the rule set (modelled by an arbitrary fixed
function `mirror`), then stages everything; it never commits.  `getChanges`
reports `hasChanges` exactly when the working tree differs from `HEAD`
(`git status --porcelain` nonempty).  `performSync` on a container with no
shadow repository yet additionally commits a baseline after the first copy and
re-syncs, so `HEAD` ends up equal to the mirrored container content; on an
existing shadow repository it only syncs and reads the changes. -/

structure ShadowGit (σ : Type) where
  head : σ
  worktree : σ
  deriving DecidableEq

/-- `getChanges().hasChanges`: the working tree differs from `HEAD`. -/
def getChangesModel {σ : Type} [DecidableEq σ] (g : ShadowGit σ) : Bool :=
  decide (g.worktree ≠ g.head)

/-- One `performSync` call for container content `c`: `none` means no shadow
repository existed yet (first sync, with baseline commit); the result is the
shadow state and the `hasChanges` value broadcast in `sync-complete`. -/
def performSyncStep {κ σ : Type} [DecidableEq σ] (mirror : κ → σ)
    (st : Option (ShadowGit σ)) (c : κ) : ShadowGit σ × Bool :=
  match st with
  | none =>
    let g : ShadowGit σ := ⟨mirror c, mirror c⟩
    (g, getChangesModel g)
  | some g =>
    let g' : ShadowGit σ := ⟨g.head, mirror c⟩
    (g', getChangesModel g')

/-- C8 counterexample: with an existing shadow repository whose `HEAD` (content
`0`) differs from the container content (`1`) — e.g. the agent created a file
after the baseline — the first sync reports changes and a second sync with the
container unchanged reports `hasChanges = true` again, not `false`. -/
theorem sync_second_call_reports_changes :
    (performSyncStep (fun n : Nat => n) (some ⟨0, 0⟩) 1).2 = true ∧
    (performSyncStep (fun n : Nat => n)
        (some (performSyncStep (fun n : Nat => n) (some ⟨0, 0⟩) 1).1) 1).2 = true := by
  decide

/-- C8 amended: running sync twice with no intervening container changes leaves
the shadow state fixed and reports the same `hasChanges` on the second call as
on the first; the second call reports `hasChanges = false` when the first call
was the container's first sync (which establishes the baseline commit). -/
theorem sync_idempotent_state (κ σ : Type) [DecidableEq σ] (mirror : κ → σ)
    (st : Option (ShadowGit σ)) (c : κ) :
    (performSyncStep mirror (some (performSyncStep mirror st c).1) c).1 =
      (performSyncStep mirror st c).1 ∧
    (performSyncStep mirror (some (performSyncStep mirror st c).1) c).2 =
      (performSyncStep mirror st c).2 ∧
    (st = none →
      (performSyncStep mirror (some (performSyncStep mirror st c).1) c).2 = false) := by
  cases st with
  | none => simp [performSyncStep, getChangesModel]
  | some g => simp [performSyncStep, getChangesModel]

/-- Witness for the amended C8: first-ever sync followed by a second sync. -/
theorem sync_idempotent_state_witness :
    (performSyncStep (fun n : Nat => n)
        (some (performSyncStep (fun n : Nat => n) none 1).1) 1).2 = false :=
  (sync_idempotent_state Nat Nat (fun n => n) none 1).2.2 rfl

end CCRunner
